import Mathlib

/-!
Verification of the disk-pressure LoRA eviction node (comfy_purge_loras/__init__.py).

The development is a shallow embedding of the module.  The filesystem the code
talks to through pathlib/shutil is made explicit as a state value:

* `FSys` models the filesystem holding the LoRAs directory: whether the root
  exists and is a directory, the entries `Path.rglob` would enumerate under it,
  the capacity of the device and the bytes used by everything else on it.
* Each `Entry` carries the data the code reads (`name`, `Path.suffix`,
  `is_file()`, `st_mtime`, `st_size`) plus a `status` describing how the file
  behaves during the run: `ok` (normal), `vanished` (raises FileNotFoundError
  on `stat`), `permission` / `isDirectory` / `otherError` (the corresponding
  exception on `unlink`).  This encodes the race conditions the code handles.
* `World` adds the state `PurgeLoRAsWhenDiskFull.run` touches beyond the LoRAs
  device: the cwd usage probed on the warning path, and the user trash folder
  (existence plus the total size `_folder_size` would measure).

Floats are modelled as exact rationals; `time.time()` is a single `now`
parameter (the code calls it once per key during the sort and once before the
loop; those calls are collapsed into one instant).  The human-readable byte
formatting of `_format_bytes` is presentational and elided from log lines;
log lines keep their structure (one line per event, naming the file).
-/

/-- How a file behaves when the purge loop touches it: `ok` files stat and
unlink normally, `vanished` files raise FileNotFoundError on `stat`, and the
remaining statuses make `unlink` raise PermissionError, IsADirectoryError or a
generic Exception respectively (the three `except` arms of the source). -/
inductive FileStatus where
  | ok : FileStatus
  | vanished : FileStatus
  | permission : FileStatus
  | isDirectory : FileStatus
  | otherError : FileStatus
deriving DecidableEq

/-- One entry enumerated by `loras_dir.rglob("*")`.  `ext` is the value of
`Path.suffix` (lowercased later by the code), `isFile` the value of
`is_file()` at enumeration time, `mtime`/`size` the stat data. -/
structure Entry where
  name : String
  ext : String
  isFile : Bool
  mtime : ℚ
  size : Nat
  status : FileStatus
deriving DecidableEq

/-- Result of a successful `Path.stat()` call, as the code uses it. -/
structure StatResult where
  st_mtime : ℚ
  st_size : Nat
deriving DecidableEq

/-- `f.stat()` in the loop body: a vanished file raises FileNotFoundError
(`none`); every other file returns its stat data. -/
def Entry.stat (f : Entry) : Option StatResult :=
  if f.status = FileStatus.vanished then none else some ⟨f.mtime, f.size⟩

/-- The filesystem holding the LoRAs directory. -/
structure FSys where
  rootExists : Bool
  rootIsDir : Bool
  entries : List Entry
  otherUsed : Nat
  total : Nat
deriving DecidableEq

/-- State of everything `PurgeLoRAsWhenDiskFull.run` can observe or mutate:
the LoRAs filesystem, the cwd usage probed when the path is missing, and the
user trash folder. -/
structure World where
  fs : FSys
  cwdUsed : Nat
  cwdTotal : Nat
  trashExists : Bool
  trashSize : Nat
deriving DecidableEq

/-- `_disk_usage_percent`: used percentage, with a zero total replaced by 1
(`usage.total if usage.total else 1`). -/
def disk_usage_percent (used total : Nat) : ℚ :=
  ((used : ℚ) / ((if total = 0 then 1 else total : Nat) : ℚ)) * 100

/-- Bytes used on the device backing the LoRAs directory: everything else on
the device plus the live files under the root.  Deleting a file frees its
size, which is how `shutil.disk_usage` sees deletions in the model. -/
def usedBytes (fs : FSys) : Nat :=
  fs.otherUsed + ((fs.entries.filter fun e => e.isFile).map fun e => e.size).sum

/-- `_disk_usage_percent(root_for_usage)` against the modelled filesystem. -/
def usagePercent (fs : FSys) : ℚ :=
  disk_usage_percent (usedBytes fs) fs.total

/-- Python `sub in s` on strings: `sub` occurs contiguously in `s`. -/
def strContainsSub (s sub : String) : Bool :=
  decide (sub.data <:+: s.data)

/-- `_collect_lora_files`: empty when the root is missing or not a directory;
otherwise keep the regular files whose lowercased suffix is allowed (when the
allowed set is non-empty) and whose lowercased name contains no excluded
substring. -/
def collect_lora_files (fs : FSys) (allowed_suffixes exclude_names : List String) :
    List Entry :=
  if fs.rootExists = false ∨ fs.rootIsDir = false then []
  else
    fs.entries.filter fun f =>
      f.isFile &&
      (allowed_suffixes.isEmpty || allowed_suffixes.contains f.ext.toLower) &&
      !(exclude_names.any fun x => strContainsSub f.name.toLower x)

/-- `_mtime_safe`: the sort key; a vanished file raises FileNotFoundError in
`stat` and the key falls back to `time.time()`, i.e. `now`. -/
def mtime_safe (now : ℚ) (f : Entry) : ℚ :=
  if f.status = FileStatus.vanished then now else f.mtime

/-- The ordering `files.sort(key=_mtime_safe)` sorts by. -/
def mtimeOrder (now : ℚ) (a b : Entry) : Prop :=
  mtime_safe now a ≤ mtime_safe now b

instance (now : ℚ) : DecidableRel (mtimeOrder now) := fun a b =>
  inferInstanceAs (Decidable (mtime_safe now a ≤ mtime_safe now b))

instance (now : ℚ) : IsTotal Entry (mtimeOrder now) :=
  ⟨fun a b => le_total (mtime_safe now a) (mtime_safe now b)⟩

instance (now : ℚ) : IsTrans Entry (mtimeOrder now) :=
  ⟨fun _ _ _ h h2 => le_trans h h2⟩

/-- Mutable state of the purge loop: the filesystem plus the accumulators of
the source (`files_deleted`, `bytes_freed`, `lines`).  `deleted` records, in
order, the files counted as deleted (one per `files_deleted += 1`), an
instrumentation of the per-deletion log lines. -/
structure LoopState where
  fs : FSys
  files_deleted : Nat
  bytes_freed : Nat
  deleted : List Entry
  lines : List String
deriving DecidableEq

/-- The deletion attempt of the loop body (the `size = st.st_size` line and
the dry-run/try-except block).  Dry-run counts without touching the
filesystem.  Live mode: `unlink(missing_ok=True)` succeeds for `ok` (and for
an already-missing file) and the file is counted and removed; the three error
statuses are caught, logged and skipped without counting. -/
def attempt_delete (dry_run : Bool) (st : StatResult) (f : Entry) (s : LoopState) :
    LoopState :=
  if dry_run then
    { s with
      files_deleted := s.files_deleted + 1
      bytes_freed := s.bytes_freed + st.st_size
      deleted := s.deleted ++ [f]
      lines := s.lines ++ ["[DRY RUN] " ++ f.name] }
  else
    match f.status with
    | FileStatus.permission =>
        { s with lines := s.lines ++ ["[SKIP: permission] " ++ f.name] }
    | FileStatus.isDirectory =>
        { s with lines := s.lines ++ ["[SKIP: directory] " ++ f.name] }
    | FileStatus.otherError =>
        { s with lines := s.lines ++ ["[SKIP: " ++ f.name ++ "] error"] }
    | _ =>
        { s with
          fs := { s.fs with entries := s.fs.entries.erase f }
          files_deleted := s.files_deleted + 1
          bytes_freed := s.bytes_freed + st.st_size
          deleted := s.deleted ++ [f]
          lines := s.lines ++ ["Deleted " ++ f.name] }

/-- The `for f in files` loop of `_purge_oldest_until_below`: stop on the
deletion limit, skip a file that vanished before re-stat (silently) or that is
younger than the minimum age, otherwise attempt the deletion and stop early
when the re-probed usage is below target. -/
def purge_loop (target_percent : ℚ) (min_age_seconds delete_count_limit : Nat)
    (dry_run : Bool) (now : ℚ) (s : LoopState) : List Entry → LoopState
  | [] => s
  | f :: rest =>
    if delete_count_limit ≠ 0 ∧ delete_count_limit ≤ s.files_deleted then
      { s with lines := s.lines ++ ["[STOP] Reached delete_count_limit"] }
    else
      match f.stat with
      | none => purge_loop target_percent min_age_seconds delete_count_limit dry_run now s rest
      | some st =>
        if 0 < min_age_seconds ∧ now - st.st_mtime < (min_age_seconds : ℚ) then
          purge_loop target_percent min_age_seconds delete_count_limit dry_run now s rest
        else
          let s2 := attempt_delete dry_run st f s
          if usagePercent s2.fs < target_percent then
            { s2 with lines := s2.lines ++ ["[OK] Reached target"] }
          else
            purge_loop target_percent min_age_seconds delete_count_limit dry_run now s2 rest

/-- The summary dict returned by `_purge_oldest_until_below`, with the
`deleted` instrumentation list alongside the numeric fields. -/
structure PurgeResult where
  triggered : Bool
  before_used_pct : ℚ
  after_used_pct : ℚ
  files_deleted : Nat
  bytes_freed : Nat
  deleted : List Entry
  log : List String
deriving DecidableEq

/-- The header lines built before the loop (policy parameters in effect);
their formatted values are presentational and elided. -/
def purge_header : List String :=
  ["Disk usage at or above threshold - purging LoRAs",
   "Target after purge", "Allowed suffixes", "Excluded name substrings",
   "Min age, delete limit, dry-run", "", "Deletions (oldest first):"]

/-- `_purge_oldest_until_below`: probe usage, return a no-purge summary below
the threshold, otherwise collect, sort oldest-first and run the loop, then
re-probe for the report.  Returns the final filesystem next to the summary. -/
def purge_oldest_until_below (fs : FSys) (now : ℚ)
    (threshold_percent target_percent : ℚ)
    (allowed_suffixes exclude_names : List String)
    (min_age_seconds delete_count_limit : Nat) (dry_run : Bool) :
    FSys × PurgeResult :=
  let before_used_pct := usagePercent fs
  if before_used_pct < threshold_percent then
    (fs, ⟨false, before_used_pct, before_used_pct, 0, 0, [],
      ["Disk usage OK (no purge)."]⟩)
  else
    let files := List.insertionSort (mtimeOrder now)
      (collect_lora_files fs allowed_suffixes exclude_names)
    let out := purge_loop target_percent min_age_seconds delete_count_limit dry_run now
      ⟨fs, 0, 0, [], purge_header⟩ files
    let after_used_pct := usagePercent out.fs
    (out.fs,
      ⟨true, before_used_pct, after_used_pct, out.files_deleted, out.bytes_freed,
        out.deleted,
        ["Freed total", "Usage before and after", ""] ++ out.lines⟩)

/-- `_clear_user_trash`: report when the trash folder is missing, otherwise
`shutil.rmtree(ignore_errors=True)` empties it and the line reports the size
measured beforehand by `_folder_size` (modelled by the `trashSize` field). -/
def clear_user_trash (w : World) : World × String :=
  if w.trashExists = false then
    (w, "Trash folder not found at HOME/.local/share/Trash/files")
  else
    ({ w with trashExists := false, trashSize := 0 },
      "Cleared trash at HOME/.local/share/Trash/files, freed ~" ++ Nat.repr w.trashSize)

/-- The hysteresis normalization in `run`: `target_percent` is silently pulled
down to `threshold_percent - 1.0` when it is not strictly below the
threshold. -/
def run_target_percent (threshold_percent target_percent : ℚ) : ℚ :=
  if target_percent ≥ threshold_percent then threshold_percent - 1 else target_percent

/-- `_csv_list`: split on commas, strip whitespace, drop empty items. -/
def csv_list (s : String) : List String :=
  ((s.splitOn ",").map String.trim).filter fun x => x ≠ ""

/-- Normalization of `allowed_suffixes_csv`: lowercase, leading-dot form. -/
def allowed_suffixes_of_csv (csv : String) : List String :=
  (csv_list csv).map fun x =>
    if x.startsWith "." then x.toLower else "." ++ x.toLower

/-- Normalization of `exclude_names_csv`: lowercase. -/
def exclude_names_of_csv (csv : String) : List String :=
  (csv_list csv).map String.toLower

/-- The tuple returned by the node (log, used_before_pct, used_after_pct,
files_deleted, bytes_freed); the log is kept as a list of lines. -/
structure RunOutput where
  log : List String
  used_before_pct : ℚ
  used_after_pct : ℚ
  files_deleted : Nat
  bytes_freed : Nat
deriving DecidableEq

/-- `PurgeLoRAsWhenDiskFull.run`: warn and return early when the LoRAs path
does not exist (probing cwd usage for the report); otherwise normalize the
CSV inputs and the target, run the purge, and always clear the user trash
afterwards, appending its report to the log. -/
def PurgeLoRAsWhenDiskFull_run (w : World) (now : ℚ)
    (threshold_percent target_percent : ℚ)
    (allowed_suffixes_csv exclude_names_csv : String)
    (min_age_minutes delete_count_limit : Nat) (dry_run : Bool) :
    World × RunOutput :=
  if w.fs.rootExists = false then
    (w, ⟨["[WARN] LoRAs path does not exist", "Current usage (cwd)"],
      disk_usage_percent w.cwdUsed w.cwdTotal,
      disk_usage_percent w.cwdUsed w.cwdTotal, 0, 0⟩)
  else
    let res := purge_oldest_until_below w.fs now threshold_percent
      (run_target_percent threshold_percent target_percent)
      (allowed_suffixes_of_csv allowed_suffixes_csv)
      (exclude_names_of_csv exclude_names_csv)
      (min_age_minutes * 60) delete_count_limit dry_run
    let wt := clear_user_trash { w with fs := res.1 }
    (wt.1,
      ⟨(res.2.log ++ [""]) ++ [wt.2], res.2.before_used_pct, res.2.after_used_pct,
        res.2.files_deleted, res.2.bytes_freed⟩)

/-- A candidate the dry-run loop counts: it survives the re-stat (did not
vanish) and is not protected by the minimum age. -/
def eligible_candidate (min_age_seconds : Nat) (now : ℚ) (f : Entry) : Bool :=
  decide (f.status ≠ FileStatus.vanished ∧
    ¬(0 < min_age_seconds ∧ now - f.mtime < (min_age_seconds : ℚ)))

/-! Concrete filesystem states used by witnesses and counterexamples. -/

/-- An old eligible LoRA file. -/
def exOld : Entry := ⟨"old_model.safetensors", ".safetensors", true, 10, 100, FileStatus.ok⟩

/-- A newer eligible LoRA file. -/
def exMid : Entry := ⟨"mid_model.safetensors", ".safetensors", true, 500, 150, FileStatus.ok⟩

/-- A candidate that vanishes between collection and the loop's re-stat. -/
def exGone : Entry := ⟨"gone_model.safetensors", ".safetensors", true, 20, 40, FileStatus.vanished⟩

/-- A file whose modification time lies in the future of `now = 1000`. -/
def exFuture : Entry := ⟨"future_model.safetensors", ".safetensors", true, 1100, 50, FileStatus.ok⟩

/-- A freshly written file (10 seconds old at `now = 1000`). -/
def exFresh : Entry := ⟨"fresh_model.safetensors", ".safetensors", true, 990, 60, FileStatus.ok⟩

/-- A file whose deletion raises PermissionError. -/
def exPerm : Entry := ⟨"locked_model.safetensors", ".safetensors", true, 30, 70, FileStatus.permission⟩

/-- Three candidates (listed unsorted), 99% usage on a 1000-byte device. -/
def fsMain : FSys := ⟨true, true, [exMid, exOld, exGone], 700, 1000⟩

/-- Only the vanishing candidate, 100% usage. -/
def fsGone : FSys := ⟨true, true, [exGone], 960, 1000⟩

/-- Only the future-dated candidate, 100% usage. -/
def fsFuture : FSys := ⟨true, true, [exFuture], 950, 1000⟩

/-- Only the fresh candidate, 100% usage. -/
def fsFresh : FSys := ⟨true, true, [exFresh], 940, 1000⟩

/-- A quiet filesystem at 30% usage. -/
def fsLow : FSys := ⟨true, true, [exOld], 200, 1000⟩

/-- A world whose LoRAs path does not exist but whose trash folder holds data. -/
def wMissing : World := ⟨⟨false, false, [], 0, 1000⟩, 500, 1000, true, 7⟩

/-- A world with an existing LoRAs path and a non-empty trash folder. -/
def wHome : World := ⟨fsLow, 100, 1000, true, 9⟩

/-- A loop state over `fsGone` with empty accumulators. -/
def sGone : LoopState := ⟨fsGone, 0, 0, [], []⟩

/-! Helper lemmas about the embedded operations. -/

theorem Entry.stat_none_iff (f : Entry) :
    f.stat = none ↔ f.status = FileStatus.vanished := by
  unfold Entry.stat
  split
  · simpa
  · simpa

theorem Entry.stat_some_eq (f : Entry) (st : StatResult) (h : f.stat = some st) :
    st.st_mtime = f.mtime ∧ st.st_size = f.size ∧ f.status ≠ FileStatus.vanished := by
  unfold Entry.stat at h
  split at h
  · exact absurd h (by simp)
  · obtain rfl : (⟨f.mtime, f.size⟩ : StatResult) = st := Option.some_injective _ h
    exact ⟨rfl, rfl, by assumption⟩

theorem attempt_delete_dry_fs (st : StatResult) (f : Entry) (s : LoopState) :
    (attempt_delete true st f s).fs = s.fs := rfl

theorem attempt_delete_spec (d : Bool) (st : StatResult) (f : Entry) (s : LoopState) :
    ((attempt_delete d st f s).fs = s.fs ∧
      (attempt_delete d st f s).files_deleted = s.files_deleted ∧
      (attempt_delete d st f s).bytes_freed = s.bytes_freed ∧
      (attempt_delete d st f s).deleted = s.deleted) ∨
    ((attempt_delete d st f s).files_deleted = s.files_deleted + 1 ∧
      (attempt_delete d st f s).bytes_freed = s.bytes_freed + st.st_size ∧
      (attempt_delete d st f s).deleted = s.deleted ++ [f]) := by
  cases d with
  | true => exact Or.inr ⟨rfl, rfl, rfl⟩
  | false =>
    cases h : f.status with
    | permission => exact Or.inl ⟨by simp [attempt_delete, h], by simp [attempt_delete, h],
        by simp [attempt_delete, h], by simp [attempt_delete, h]⟩
    | isDirectory => exact Or.inl ⟨by simp [attempt_delete, h], by simp [attempt_delete, h],
        by simp [attempt_delete, h], by simp [attempt_delete, h]⟩
    | otherError => exact Or.inl ⟨by simp [attempt_delete, h], by simp [attempt_delete, h],
        by simp [attempt_delete, h], by simp [attempt_delete, h]⟩
    | ok => exact Or.inr ⟨by simp [attempt_delete, h], by simp [attempt_delete, h],
        by simp [attempt_delete, h]⟩
    | vanished => exact Or.inr ⟨by simp [attempt_delete, h], by simp [attempt_delete, h],
        by simp [attempt_delete, h]⟩

theorem attempt_delete_fd_le (d : Bool) (st : StatResult) (f : Entry) (s : LoopState) :
    (attempt_delete d st f s).files_deleted ≤ s.files_deleted + 1 := by
  rcases attempt_delete_spec d st f s with ⟨_, h, _, _⟩ | ⟨h, _, _⟩ <;> omega

theorem attempt_delete_mem_entries (d : Bool) (st : StatResult) (f : Entry) (s : LoopState)
    (e : Entry) (hne : e ≠ f) (he : e ∈ s.fs.entries) :
    e ∈ (attempt_delete d st f s).fs.entries := by
  cases d with
  | true => exact he
  | false =>
    cases h : f.status with
    | permission => simpa [attempt_delete, h] using he
    | isDirectory => simpa [attempt_delete, h] using he
    | otherError => simpa [attempt_delete, h] using he
    | ok =>
      simp only [attempt_delete, h]
      exact (List.mem_erase_of_ne hne).mpr he
    | vanished =>
      simp only [attempt_delete, h]
      exact (List.mem_erase_of_ne hne).mpr he

theorem purge_loop_dry_fs (t : ℚ) (m k : Nat) (now : ℚ) :
    ∀ (files : List Entry) (s : LoopState),
      (purge_loop t m k true now s files).fs = s.fs := by
  intro files
  induction files with
  | nil => intro s; rfl
  | cons f rest ih =>
    intro s
    simp only [purge_loop]
    split
    · rfl
    · cases hst : f.stat with
      | none => simpa [hst] using ih s
      | some st =>
        simp only [hst]
        split
        · exact ih s
        · split
          · exact attempt_delete_dry_fs st f s
          · exact (ih _).trans (attempt_delete_dry_fs st f s)

theorem purge_loop_deleted (t : ℚ) (m k : Nat) (d : Bool) (now : ℚ) :
    ∀ (files : List Entry) (s : LoopState),
      ∃ dl : List Entry,
        (purge_loop t m k d now s files).deleted = s.deleted ++ dl ∧
        dl.Sublist files ∧
        (purge_loop t m k d now s files).files_deleted = s.files_deleted + dl.length ∧
        ∀ f ∈ dl, f.status ≠ FileStatus.vanished ∧
          ¬(0 < m ∧ now - f.mtime < (m : ℚ)) := by
  intro files
  induction files with
  | nil =>
    intro s
    exact ⟨[], by simp [purge_loop], List.nil_sublist _, by simp [purge_loop], by simp⟩
  | cons f rest ih =>
    intro s
    simp only [purge_loop]
    split
    · exact ⟨[], by simp, List.nil_sublist _, by simp, by simp⟩
    · cases hst : f.stat with
      | none =>
        obtain ⟨dl, h1, h2, h3, h4⟩ := ih s
        exact ⟨dl, h1, h2.cons f, h3, h4⟩
      | some st =>
        simp only [hst]
        obtain ⟨hmt, hsz, hnv⟩ := Entry.stat_some_eq f st hst
        split
        · obtain ⟨dl, h1, h2, h3, h4⟩ := ih s
          exact ⟨dl, h1, h2.cons f, h3, h4⟩
        · rename_i hage
          rw [hmt] at hage
          rcases attempt_delete_spec d st f s with ⟨_, hfd, _, hdel⟩ | ⟨hfd, _, hdel⟩
          · split
            · exact ⟨[], by simpa using hdel, List.nil_sublist _, by simpa using hfd, by simp⟩
            · obtain ⟨dl, h1, h2, h3, h4⟩ := ih (attempt_delete d st f s)
              refine ⟨dl, ?_, h2.cons f, ?_, h4⟩
              · rw [h1, hdel]
              · rw [h3, hfd]
          · split
            · refine ⟨[f], by simpa using hdel, ?_, by simpa using hfd, ?_⟩
              · simp
              · intro g hg
                rw [List.mem_singleton] at hg
                subst hg
                exact ⟨hnv, hage⟩
            · obtain ⟨dl, h1, h2, h3, h4⟩ := ih (attempt_delete d st f s)
              refine ⟨f :: dl, ?_, h2.cons₂ f, ?_, ?_⟩
              · rw [h1, hdel]
                simp
              · rw [h3, hfd]
                simp only [List.length_cons]
                omega
              · intro g hg
                rcases List.mem_cons.mp hg with rfl | hg
                · exact ⟨hnv, hage⟩
                · exact h4 g hg

theorem purge_loop_keeps_young (t : ℚ) (m k : Nat) (d : Bool) (now : ℚ) (hm : 0 < m) :
    ∀ (files : List Entry) (s : LoopState) (e : Entry),
      e ∈ s.fs.entries → now - e.mtime < (m : ℚ) →
      e ∈ (purge_loop t m k d now s files).fs.entries := by
  intro files
  induction files with
  | nil => intro s e he _; exact he
  | cons f rest ih =>
    intro s e he hy
    simp only [purge_loop]
    split
    · exact he
    · cases hst : f.stat with
      | none => exact ih s e he hy
      | some st =>
        simp only [hst]
        split
        · exact ih s e he hy
        · rename_i hage
          obtain ⟨hmt, _, _⟩ := Entry.stat_some_eq f st hst
          rw [hmt] at hage
          have hne : e ≠ f := by
            rintro rfl
            exact hage ⟨hm, hy⟩
          have he2 : e ∈ (attempt_delete d st f s).fs.entries :=
            attempt_delete_mem_entries d st f s e hne he
          split
          · exact he2
          · exact ih _ e he2 hy

theorem purge_loop_le_limit (t : ℚ) (m k : Nat) (d : Bool) (now : ℚ) (hk : k ≠ 0) :
    ∀ (files : List Entry) (s : LoopState), s.files_deleted ≤ k →
      (purge_loop t m k d now s files).files_deleted ≤ k := by
  intro files
  induction files with
  | nil => intro s h; exact h
  | cons f rest ih =>
    intro s h
    simp only [purge_loop]
    split
    · exact h
    · rename_i hlim
      have hlt : s.files_deleted < k := by
        rcases not_and_or.mp hlim with h0 | h1
        · exact absurd hk (by simpa using h0)
        · omega
      cases hst : f.stat with
      | none => exact ih s h
      | some st =>
        simp only [hst]
        split
        · exact ih s h
        · have h2 : (attempt_delete d st f s).files_deleted ≤ k := by
            have := attempt_delete_fd_le d st f s
            omega
          split
          · exact h2
          · exact ih _ h2

theorem eligible_candidate_false_of_vanished (m : Nat) (now : ℚ) (f : Entry)
    (h : f.status = FileStatus.vanished) : eligible_candidate m now f = false := by
  simp [eligible_candidate, h]

theorem eligible_candidate_false_of_young (m : Nat) (now : ℚ) (f : Entry)
    (h : 0 < m ∧ now - f.mtime < (m : ℚ)) : eligible_candidate m now f = false := by
  simp only [eligible_candidate, decide_eq_false_iff_not]
  rintro ⟨-, hn⟩
  exact hn h

theorem eligible_candidate_true (m : Nat) (now : ℚ) (f : Entry)
    (h1 : f.status ≠ FileStatus.vanished) (h2 : ¬(0 < m ∧ now - f.mtime < (m : ℚ))) :
    eligible_candidate m now f = true := by
  simp only [eligible_candidate, decide_eq_true_iff]
  exact ⟨h1, h2⟩

theorem purge_loop_dry_count (t : ℚ) (m : Nat) (now : ℚ) :
    ∀ (files : List Entry) (s : LoopState), t ≤ usagePercent s.fs →
      (purge_loop t m 0 true now s files).files_deleted
          = s.files_deleted + (files.filter (eligible_candidate m now)).length ∧
      (purge_loop t m 0 true now s files).bytes_freed
          = s.bytes_freed + ((files.filter (eligible_candidate m now)).map fun f => f.size).sum ∧
      (purge_loop t m 0 true now s files).deleted
          = s.deleted ++ files.filter (eligible_candidate m now) := by
  intro files
  induction files with
  | nil => intro s _; refine ⟨by simp [purge_loop], by simp [purge_loop], by simp [purge_loop]⟩
  | cons f rest ih =>
    intro s hts
    simp only [purge_loop]
    rw [if_neg (by simp)]
    cases hst : f.stat with
    | none =>
      have hel : eligible_candidate m now f = false :=
        eligible_candidate_false_of_vanished m now f ((Entry.stat_none_iff f).mp hst)
      simpa [List.filter_cons, hel] using ih s hts
    | some st =>
      simp only [hst]
      obtain ⟨hmt, hsz, hnv⟩ := Entry.stat_some_eq f st hst
      split
      · rename_i hyoung
        rw [hmt] at hyoung
        have hel : eligible_candidate m now f = false :=
          eligible_candidate_false_of_young m now f hyoung
        simpa [List.filter_cons, hel] using ih s hts
      · rename_i hyoung
        rw [hmt] at hyoung
        have hel : eligible_candidate m now f = true :=
          eligible_candidate_true m now f hnv hyoung
        have hnlt : ¬ usagePercent (attempt_delete true st f s).fs < t := by
          rw [attempt_delete_dry_fs]
          exact not_lt.mpr hts
        rw [if_neg hnlt]
        have hfs : (attempt_delete true st f s).fs = s.fs := rfl
        obtain ⟨ih1, ih2, ih3⟩ := ih (attempt_delete true st f s) (by rw [hfs]; exact hts)
        have ha1 : (attempt_delete true st f s).files_deleted = s.files_deleted + 1 := rfl
        have ha2 : (attempt_delete true st f s).bytes_freed = s.bytes_freed + st.st_size := rfl
        have ha3 : (attempt_delete true st f s).deleted = s.deleted ++ [f] := rfl
        refine ⟨?_, ?_, ?_⟩
        · rw [ih1, ha1]
          simp only [List.filter_cons, hel, if_pos, List.length_cons]
          omega
        · rw [ih2, ha2, hsz]
          simp only [List.filter_cons, hel, if_pos, List.map_cons, List.sum_cons]
          omega
        · rw [ih3, ha3]
          simp [List.filter_cons, hel]

theorem purge_dry_fs_eq (fs : FSys) (now θ t : ℚ) (a e : List String) (m k : Nat) :
    (purge_oldest_until_below fs now θ t a e m k true).1 = fs := by
  simp only [purge_oldest_until_below]
  split
  · rfl
  · exact purge_loop_dry_fs t m k now _ _

/-! Claim theorems. -/

/-- C4: for every run whose initially probed usage is strictly below the
threshold, the engine performs no deletions (the filesystem is returned
untouched) and reports triggered=false, zero files deleted, zero bytes freed,
and an after-usage equal to the before-usage. -/
theorem c4_below_threshold_no_op (fs : FSys) (now θ t : ℚ) (a e : List String)
    (m k : Nat) (d : Bool) (h : usagePercent fs < θ) :
    (purge_oldest_until_below fs now θ t a e m k d).1 = fs ∧
    (purge_oldest_until_below fs now θ t a e m k d).2.triggered = false ∧
    (purge_oldest_until_below fs now θ t a e m k d).2.files_deleted = 0 ∧
    (purge_oldest_until_below fs now θ t a e m k d).2.bytes_freed = 0 ∧
    (purge_oldest_until_below fs now θ t a e m k d).2.deleted = [] ∧
    (purge_oldest_until_below fs now θ t a e m k d).2.after_used_pct
      = (purge_oldest_until_below fs now θ t a e m k d).2.before_used_pct ∧
    (purge_oldest_until_below fs now θ t a e m k d).2.before_used_pct = usagePercent fs := by
  simp only [purge_oldest_until_below]
  rw [if_pos h]
  exact ⟨rfl, rfl, rfl, rfl, rfl, rfl, rfl⟩

/-- Witness for C4: a filesystem at 30% usage against a 90% threshold. -/
theorem c4_witness :
    usagePercent fsLow < 90 ∧
    ((purge_oldest_until_below fsLow 1000 90 85 [".safetensors"] [] 0 0 true).1 = fsLow ∧
      (purge_oldest_until_below fsLow 1000 90 85 [".safetensors"] [] 0 0 true).2.triggered = false ∧
      (purge_oldest_until_below fsLow 1000 90 85 [".safetensors"] [] 0 0 true).2.files_deleted = 0 ∧
      (purge_oldest_until_below fsLow 1000 90 85 [".safetensors"] [] 0 0 true).2.bytes_freed = 0 ∧
      (purge_oldest_until_below fsLow 1000 90 85 [".safetensors"] [] 0 0 true).2.deleted = [] ∧
      (purge_oldest_until_below fsLow 1000 90 85 [".safetensors"] [] 0 0 true).2.after_used_pct
        = (purge_oldest_until_below fsLow 1000 90 85 [".safetensors"] [] 0 0 true).2.before_used_pct ∧
      (purge_oldest_until_below fsLow 1000 90 85 [".safetensors"] [] 0 0 true).2.before_used_pct
        = usagePercent fsLow) := by
  have h : usagePercent fsLow < 90 := by with_unfolding_all decide
  exact ⟨h, c4_below_threshold_no_op fsLow 1000 90 85 [".safetensors"] [] 0 0 true h⟩

/-- C8: with a configured deletion limit strictly greater than zero, the total
number of files counted as deleted (including dry-run simulated deletions)
never exceeds the limit. -/
theorem c8_deletion_limit (fs : FSys) (now θ t : ℚ) (a e : List String)
    (m k : Nat) (d : Bool) (hk : 0 < k) :
    (purge_oldest_until_below fs now θ t a e m k d).2.files_deleted ≤ k := by
  simp only [purge_oldest_until_below]
  split
  · exact Nat.zero_le k
  · exact purge_loop_le_limit t m k d now hk.ne' _ _ (Nat.zero_le k)

/-- Witness for C8: a limit of 1 against two eligible files. -/
theorem c8_witness :
    0 < 1 ∧
    (purge_oldest_until_below fsMain 1000 90 85 [".safetensors"] [] 0 1 false).2.files_deleted
      ≤ 1 :=
  ⟨Nat.one_pos, c8_deletion_limit fsMain 1000 90 85 [".safetensors"] [] 0 1 false Nat.one_pos⟩

/-- C10: running the purge twice in dry-run mode, the second run starting from
the state the first run left behind (which dry-run never mutates), produces
the identical list of simulated deletions and the identical byte total. -/
theorem c10_dry_run_idempotent (fs : FSys) (now θ t : ℚ) (a e : List String) (m k : Nat) :
    (purge_oldest_until_below
        (purge_oldest_until_below fs now θ t a e m k true).1 now θ t a e m k true).2.deleted
      = (purge_oldest_until_below fs now θ t a e m k true).2.deleted ∧
    (purge_oldest_until_below
        (purge_oldest_until_below fs now θ t a e m k true).1 now θ t a e m k true).2.bytes_freed
      = (purge_oldest_until_below fs now θ t a e m k true).2.bytes_freed := by
  rw [purge_dry_fs_eq]
  exact ⟨rfl, rfl⟩

/-- C6: the target percentage handed to the eviction engine is always strictly
below the threshold; a misconfigured target (at or above the threshold) is
silently replaced by threshold minus one, and the run behaves exactly as if it
had been configured with the corrected value — no error is surfaced. -/
theorem c6_target_normalization (θ t : ℚ) :
    run_target_percent θ t < θ ∧
    (θ ≤ t →
      run_target_percent θ t = θ - 1 ∧
      ∀ (w : World) (now : ℚ) (acsv ecsv : String) (m k : Nat) (d : Bool),
        PurgeLoRAsWhenDiskFull_run w now θ t acsv ecsv m k d
          = PurgeLoRAsWhenDiskFull_run w now θ (θ - 1) acsv ecsv m k d) := by
  refine ⟨?_, fun h => ⟨?_, ?_⟩⟩
  · unfold run_target_percent
    split
    · linarith
    · rename_i hge
      push_neg at hge
      exact hge
  · unfold run_target_percent
    rw [if_pos (by linarith)]
  · intro w now acsv ecsv m k d
    have heq : run_target_percent θ t = run_target_percent θ (θ - 1) := by
      unfold run_target_percent
      rw [if_pos (by linarith), if_neg (by push_neg; linarith)]
    simp only [PurgeLoRAsWhenDiskFull_run]
    rw [heq]

/-- Witness for C6 at threshold 90 and misconfigured target 95. -/
theorem c6_witness :
    run_target_percent 90 95 < 90 ∧ run_target_percent 90 95 = 89 := by
  refine ⟨(c6_target_normalization 90 95).1, ?_⟩
  have h := ((c6_target_normalization 90 95).2 (by norm_num)).1
  rw [h]
  norm_num

/-- C3: with dry-run enabled no filesystem mutation is performed (the
filesystem is returned exactly as given) and the reported after-usage equals
the before-usage; moreover on a triggered run with no deletion limit (and a
stop target not already satisfied), every eligible candidate is counted as
deleted and its size counted as freed. -/
theorem c3_dry_run_simulation (fs : FSys) (now θ t : ℚ) (a e : List String) (m k : Nat) :
    (purge_oldest_until_below fs now θ t a e m k true).1 = fs ∧
    (purge_oldest_until_below fs now θ t a e m k true).2.after_used_pct
      = (purge_oldest_until_below fs now θ t a e m k true).2.before_used_pct ∧
    (θ ≤ usagePercent fs → t ≤ usagePercent fs → k = 0 →
      (purge_oldest_until_below fs now θ t a e m k true).2.files_deleted
        = ((collect_lora_files fs a e).filter (eligible_candidate m now)).length ∧
      (purge_oldest_until_below fs now θ t a e m k true).2.bytes_freed
        = (((collect_lora_files fs a e).filter (eligible_candidate m now)).map
            fun f => f.size).sum) := by
  refine ⟨purge_dry_fs_eq fs now θ t a e m k, ?_, ?_⟩
  · simp only [purge_oldest_until_below]
    split
    · rfl
    · dsimp only
      rw [purge_loop_dry_fs]
  · intro hθ ht hk0
    subst hk0
    simp only [purge_oldest_until_below]
    rw [if_neg (not_lt.mpr hθ)]
    dsimp only
    obtain ⟨h1, h2, -⟩ := purge_loop_dry_count t m now
      (List.insertionSort (mtimeOrder now) (collect_lora_files fs a e))
      ⟨fs, 0, 0, [], purge_header⟩ ht
    have hperm : (List.insertionSort (mtimeOrder now) (collect_lora_files fs a e)).Perm
        (collect_lora_files fs a e) := List.perm_insertionSort _ _
    have hpf := hperm.filter (eligible_candidate m now)
    constructor
    · rw [h1]
      simpa using hpf.length_eq
    · rw [h2]
      simpa using (hpf.map fun f => f.size).sum_eq

set_option maxRecDepth 8000 in
/-- Witness for C3: a triggered dry run over two eligible files (100 and 150
bytes) and one vanished candidate. -/
theorem c3_witness :
    (90:ℚ) ≤ usagePercent fsMain ∧
    (purge_oldest_until_below fsMain 1000 90 85 [".safetensors"] [] 0 0 true).1 = fsMain ∧
    (purge_oldest_until_below fsMain 1000 90 85 [".safetensors"] [] 0 0 true).2.after_used_pct
      = (purge_oldest_until_below fsMain 1000 90 85 [".safetensors"] [] 0 0 true).2.before_used_pct ∧
    (purge_oldest_until_below fsMain 1000 90 85 [".safetensors"] [] 0 0 true).2.files_deleted = 2 ∧
    (purge_oldest_until_below fsMain 1000 90 85 [".safetensors"] [] 0 0 true).2.bytes_freed = 250 := by
  have h := c3_dry_run_simulation fsMain 1000 90 85 [".safetensors"] [] 0 0
  have hθ : (90:ℚ) ≤ usagePercent fsMain := by with_unfolding_all decide
  have ht : (85:ℚ) ≤ usagePercent fsMain := by with_unfolding_all decide
  obtain ⟨hc1, hc2⟩ := h.2.2 hθ ht rfl
  refine ⟨hθ, h.1, h.2.1, ?_, ?_⟩
  · rw [hc1]
    with_unfolding_all decide
  · rw [hc2]
    with_unfolding_all decide

set_option maxRecDepth 8000 in
/-- Counterexample to C7 as stated: with the minimum age configured as 0 the
protection is disabled entirely, so a future-dated file — whose age
`now - mtime` is negative and hence below the configured duration — is still
counted as deleted. -/
theorem c7_counterexample :
    (1000 : ℚ) - exFuture.mtime < ((0 : Nat) : ℚ) ∧
    (purge_oldest_until_below fsFuture 1000 90 85 [".safetensors"] [] 0 0 true).2.files_deleted
      = 1 ∧
    exFuture ∈ (purge_oldest_until_below fsFuture 1000 90 85 [".safetensors"] [] 0 0 true).2.deleted := by
  refine ⟨?_, ?_, ?_⟩ <;> with_unfolding_all decide

/-- C7 (amended): when the configured minimum age is strictly positive, a file
whose age `now - mtime` is below it is never counted as deleted (in dry-run or
live mode) and, when present on the filesystem, survives the run. -/
theorem c7_min_age_protection (fs : FSys) (now θ t : ℚ) (a e : List String)
    (m k : Nat) (d : Bool) (f : Entry) (hm : 0 < m) (hy : now - f.mtime < (m : ℚ)) :
    f ∉ (purge_oldest_until_below fs now θ t a e m k d).2.deleted ∧
    (f ∈ fs.entries → f ∈ (purge_oldest_until_below fs now θ t a e m k d).1.entries) := by
  simp only [purge_oldest_until_below]
  split
  · exact ⟨by simp, fun h => h⟩
  · dsimp only
    constructor
    · intro hmem
      obtain ⟨dl, h1, -, -, h4⟩ := purge_loop_deleted t m k d now
        (List.insertionSort (mtimeOrder now) (collect_lora_files fs a e))
        ⟨fs, 0, 0, [], purge_header⟩
      rw [h1] at hmem
      simp only [List.nil_append] at hmem
      exact (h4 f hmem).2 ⟨hm, hy⟩
    · intro hin
      exact purge_loop_keeps_young t m k d now hm _ ⟨fs, 0, 0, [], purge_header⟩ f hin hy

/-- Witness for C7 (amended): a 10-second-old file with a 60-second minimum
age survives a live triggered run. -/
theorem c7_witness :
    (0 < 60 ∧ (1000 : ℚ) - exFresh.mtime < ((60 : Nat) : ℚ)) ∧
    exFresh ∉ (purge_oldest_until_below fsFresh 1000 90 85 [".safetensors"] [] 60 0 false).2.deleted ∧
    (exFresh ∈ fsFresh.entries →
      exFresh ∈ (purge_oldest_until_below fsFresh 1000 90 85 [".safetensors"] [] 60 0 false).1.entries) := by
  refine ⟨⟨by decide, by with_unfolding_all decide⟩, ?_⟩
  exact c7_min_age_protection fsFresh 1000 90 85 [".safetensors"] [] 60 0 false exFresh
    (by decide) (by with_unfolding_all decide)

/-- C5: the collector includes an entry iff the root exists and is a
directory, the entry is a regular file under it, its lowercased extension is
in the allowed set whenever that set is non-empty, and no excluded substring
occurs in its lowercased filename; and a missing or non-directory root yields
the empty list rather than an error. -/
theorem c5_collector_spec (fs : FSys) (allowed exclude : List String) (f : Entry) :
    (f ∈ collect_lora_files fs allowed exclude ↔
      (fs.rootExists = true ∧ fs.rootIsDir = true) ∧ f ∈ fs.entries ∧ f.isFile = true ∧
      (allowed = [] ∨ f.ext.toLower ∈ allowed) ∧
      ∀ x ∈ exclude, ¬(x.data <:+: f.name.toLower.data)) ∧
    ((fs.rootExists = false ∨ fs.rootIsDir = false) →
      collect_lora_files fs allowed exclude = []) := by
  unfold collect_lora_files
  by_cases h : fs.rootExists = false ∨ fs.rootIsDir = false
  · rw [if_pos h]
    refine ⟨?_, fun _ => rfl⟩
    simp only [List.not_mem_nil, false_iff]
    rintro ⟨⟨h1, h2⟩, -⟩
    rcases h with h | h
    · rw [h1] at h; cases h
    · rw [h2] at h; cases h
  · rw [if_neg h]
    push_neg at h
    obtain ⟨h1, h2⟩ := h
    rw [Bool.ne_false_iff] at h1 h2
    constructor
    · rw [List.mem_filter]
      simp [h1, h2, List.isEmpty_iff, strContainsSub, and_assoc]
    · rintro (hc | hc)
      · rw [h1] at hc; cases hc
      · rw [h2] at hc; cases hc

/-- Witness for C5: a concrete eligible file is a member of the collector
output, obtained through the characterization. -/
theorem c5_witness :
    exOld ∈ collect_lora_files fsMain [".safetensors"] ["keep"] :=
  (c5_collector_spec fsMain [".safetensors"] ["keep"] exOld).1.mpr
    (by with_unfolding_all decide)

theorem strContainsSub_append_left (pre s : String) :
    strContainsSub (pre ++ s) s = true :=
  decide_eq_true (by rw [String.data_append]; exact (List.suffix_append _ _).isInfix)

theorem strContainsSub_append_both (pre s post : String) :
    strContainsSub (pre ++ s ++ post) s = true :=
  decide_eq_true (by rw [String.data_append, String.data_append]; exact List.infix_append _ _ _)

/-- C2 (amended): in live mode a per-file unlink failure — permission denied,
became a directory, or any other deletion error — leaves the filesystem, the
deleted count, the freed bytes and the deletion record unchanged and appends
exactly one log line naming the file, after which the run continues; a file
that vanished before the loop's re-stat is skipped without aborting, but
silently: processing it is identical to not encountering it at all, so no log
line records the occurrence (this is where the claim as stated fails). -/
theorem c2_failure_handling :
    (∀ (s : LoopState) (st : StatResult) (f : Entry),
      f.status = FileStatus.permission ∨ f.status = FileStatus.isDirectory ∨
        f.status = FileStatus.otherError →
      (attempt_delete false st f s).fs = s.fs ∧
      (attempt_delete false st f s).files_deleted = s.files_deleted ∧
      (attempt_delete false st f s).bytes_freed = s.bytes_freed ∧
      (attempt_delete false st f s).deleted = s.deleted ∧
      ∃ msg, (attempt_delete false st f s).lines = s.lines ++ [msg] ∧
        strContainsSub msg f.name = true) ∧
    (∀ (t : ℚ) (m k : Nat) (d : Bool) (now : ℚ) (s : LoopState) (f : Entry)
      (rest : List Entry),
      f.status = FileStatus.vanished → ¬(k ≠ 0 ∧ k ≤ s.files_deleted) →
      purge_loop t m k d now s (f :: rest) = purge_loop t m k d now s rest) := by
  constructor
  · intro s st f h
    rcases h with h | h | h
    · refine ⟨by simp [attempt_delete, h], by simp [attempt_delete, h],
        by simp [attempt_delete, h], by simp [attempt_delete, h],
        "[SKIP: permission] " ++ f.name, by simp [attempt_delete, h], ?_⟩
      exact strContainsSub_append_left "[SKIP: permission] " f.name
    · refine ⟨by simp [attempt_delete, h], by simp [attempt_delete, h],
        by simp [attempt_delete, h], by simp [attempt_delete, h],
        "[SKIP: directory] " ++ f.name, by simp [attempt_delete, h], ?_⟩
      exact strContainsSub_append_left "[SKIP: directory] " f.name
    · refine ⟨by simp [attempt_delete, h], by simp [attempt_delete, h],
        by simp [attempt_delete, h], by simp [attempt_delete, h],
        "[SKIP: " ++ f.name ++ "] error", by simp [attempt_delete, h], ?_⟩
      exact strContainsSub_append_both "[SKIP: " f.name "] error"
  · intro t m k d now s f rest h1 h2
    simp only [purge_loop]
    rw [if_neg h2]
    have hst : f.stat = none := (Entry.stat_none_iff f).mpr h1
    simp only [hst]

set_option maxRecDepth 8000 in
/-- Counterexample to C2 as stated: a candidate that vanishes before the
re-stat (a stat race) is skipped, but no log line records the occurrence —
the run's whole log never mentions the file. -/
theorem c2_counterexample :
    exGone ∈ collect_lora_files fsGone [".safetensors"] [] ∧
    (purge_oldest_until_below fsGone 1000 90 85 [".safetensors"] [] 0 0 false).2.files_deleted
      = 0 ∧
    ((purge_oldest_until_below fsGone 1000 90 85 [".safetensors"] [] 0 0 false).2.log.all
      fun l => !(strContainsSub l "gone")) = true := by
  refine ⟨?_, ?_, ?_⟩ <;> with_unfolding_all decide

/-- Witness for C2 (amended): a permission failure is logged, not counted, and
a vanished candidate is processed exactly like an absent one. -/
theorem c2_witness :
    ((attempt_delete false ⟨30, 70⟩ exPerm sGone).files_deleted = sGone.files_deleted ∧
      (attempt_delete false ⟨30, 70⟩ exPerm sGone).deleted = sGone.deleted ∧
      ∃ msg, (attempt_delete false ⟨30, 70⟩ exPerm sGone).lines = sGone.lines ++ [msg] ∧
        strContainsSub msg exPerm.name = true) ∧
    purge_loop 85 0 0 false 1000 sGone [exGone] = purge_loop 85 0 0 false 1000 sGone [] := by
  obtain ⟨-, ha, -, hb, hc⟩ := c2_failure_handling.1 sGone ⟨30, 70⟩ exPerm (Or.inl rfl)
  exact ⟨⟨ha, hb, hc⟩, c2_failure_handling.2 85 0 0 false 1000 sGone exGone [] rfl (by simp)⟩

/-- C9: the files counted as deleted are processed in ascending modified-time
order, and — whenever every surviving candidate was last modified in the past
— every candidate whose modification time could not be read (sort key `now`)
sorts after all readable candidates, deprioritizing it for deletion. -/
theorem c9_oldest_first (fs : FSys) (now θ t : ℚ) (a e : List String)
    (m k : Nat) (d : Bool)
    (hfut : ∀ g ∈ collect_lora_files fs a e,
      g.status ≠ FileStatus.vanished → g.mtime < now) :
    ((purge_oldest_until_below fs now θ t a e m k d).2.deleted).Pairwise
      (fun x y => x.mtime ≤ y.mtime) ∧
    (List.insertionSort (mtimeOrder now) (collect_lora_files fs a e)).Pairwise
      (fun x y => x.status = FileStatus.vanished → y.status = FileStatus.vanished) := by
  have hsorted : (List.insertionSort (mtimeOrder now) (collect_lora_files fs a e)).Pairwise
      (mtimeOrder now) := List.sorted_insertionSort (mtimeOrder now) _
  constructor
  · simp only [purge_oldest_until_below]
    split
    · simp
    · dsimp only
      obtain ⟨dl, h1, h2, -, h4⟩ := purge_loop_deleted t m k d now
        (List.insertionSort (mtimeOrder now) (collect_lora_files fs a e))
        ⟨fs, 0, 0, [], purge_header⟩
      rw [h1]
      simp only [List.nil_append]
      have hpw : dl.Pairwise (mtimeOrder now) := List.Pairwise.sublist h2 hsorted
      refine List.Pairwise.imp_of_mem ?_ hpw
      intro x y hx hy hxy
      have hkey : mtime_safe now x ≤ mtime_safe now y := hxy
      rwa [mtime_safe, mtime_safe, if_neg (h4 x hx).1, if_neg (h4 y hy).1] at hkey
  · refine List.Pairwise.imp_of_mem ?_ hsorted
    intro x y hx hy hxy hvx
    by_contra hvy
    have hlt : y.mtime < now :=
      hfut y ((List.mem_insertionSort (mtimeOrder now)).mp hy) hvy
    have hkey : mtime_safe now x ≤ mtime_safe now y := hxy
    rw [mtime_safe, if_pos hvx, mtime_safe, if_neg hvy] at hkey
    exact absurd hkey (not_le.mpr hlt)

set_option maxRecDepth 8000 in
/-- Witness for C9: three candidates (two readable, one vanished) on a
triggered live run. -/
theorem c9_witness :
    (∀ g ∈ collect_lora_files fsMain [".safetensors"] [],
      g.status ≠ FileStatus.vanished → g.mtime < 1000) ∧
    ((purge_oldest_until_below fsMain 1000 90 85 [".safetensors"] [] 0 0 false).2.deleted).Pairwise
      (fun x y => x.mtime ≤ y.mtime) ∧
    (List.insertionSort (mtimeOrder 1000) (collect_lora_files fsMain [".safetensors"] [])).Pairwise
      (fun x y => x.status = FileStatus.vanished → y.status = FileStatus.vanished) := by
  refine ⟨by with_unfolding_all decide, ?_⟩
  exact c9_oldest_first fsMain 1000 90 85 [".safetensors"] [] 0 0 false
    (by with_unfolding_all decide)

set_option maxRecDepth 8000 in
/-- Counterexample to C1 as stated: when the LoRAs path does not exist, `run`
returns on its warning path before the trash sweep is ever reached — the
world (including the still-populated trash folder) is returned unchanged and
the log carries no sweep report. -/
theorem c1_counterexample :
    (PurgeLoRAsWhenDiskFull_run wMissing 1000 90 85 "" "" 0 0 true).1 = wMissing ∧
    wMissing.trashExists = true ∧ wMissing.trashSize = 7 ∧
    ((PurgeLoRAsWhenDiskFull_run wMissing 1000 90 85 "" "" 0 0 true).2.log.all
      fun l => !(strContainsSub l "Trash")) = true := by
  refine ⟨?_, rfl, rfl, ?_⟩ <;> with_unfolding_all decide

/-- C1 (amended): for every invocation whose LoRAs path exists, the reclaim
sweep (clearing the user trash) executes after the eviction phase regardless
of whether eviction was triggered: the resulting world has no trash folder, a
previously present trash folder is emptied, and the sweep's report is the
final log line (after the whole eviction log). -/
theorem c1_sweep_after_eviction (w : World) (now θ t : ℚ) (acsv ecsv : String)
    (m k : Nat) (d : Bool) (h : w.fs.rootExists = true) :
    (PurgeLoRAsWhenDiskFull_run w now θ t acsv ecsv m k d).1.trashExists = false ∧
    (w.trashExists = true →
      (PurgeLoRAsWhenDiskFull_run w now θ t acsv ecsv m k d).1.trashSize = 0) ∧
    (PurgeLoRAsWhenDiskFull_run w now θ t acsv ecsv m k d).2.log.getLast?
      = some (clear_user_trash w).2 := by
  simp only [PurgeLoRAsWhenDiskFull_run]
  rw [if_neg (by rw [h]; simp)]
  dsimp only
  refine ⟨?_, ?_, ?_⟩
  · by_cases htr : w.trashExists = true
    · simp [clear_user_trash, htr]
    · have hf : w.trashExists = false := by simpa using htr
      simp [clear_user_trash, hf]
  · intro htr
    simp [clear_user_trash, htr]
  · rw [List.getLast?_concat]
    by_cases htr : w.trashExists = true
    · simp [clear_user_trash, htr]
    · have hf : w.trashExists = false := by simpa using htr
      simp [clear_user_trash, hf]

/-- Witness for C1 (amended): an untriggered run (30% usage against a 90%
threshold) over an existing LoRAs path still sweeps the trash. -/
theorem c1_witness :
    (PurgeLoRAsWhenDiskFull_run wHome 1000 90 85 ".safetensors" "keep" 0 0 true).1.trashExists
      = false ∧
    (wHome.trashExists = true →
      (PurgeLoRAsWhenDiskFull_run wHome 1000 90 85 ".safetensors" "keep" 0 0 true).1.trashSize
        = 0) ∧
    (PurgeLoRAsWhenDiskFull_run wHome 1000 90 85 ".safetensors" "keep" 0 0 true).2.log.getLast?
      = some (clear_user_trash wHome).2 :=
  c1_sweep_after_eviction wHome 1000 90 85 ".safetensors" "keep" 0 0 true rfl
